import Mathlib

/-!
Verification of the cart state engine of the Learning-Angular-EcommerceApp-V17
repository.  The definitions below are a shallow embedding of
src/app/services/cart.service.ts: the two BehaviorSubject cells become the
fields of CartState (items is the stored line list, count is the stored
aggregate held by the count cell), and every call to BehaviorSubject.next is
recorded as an element of an emission trace (Emit), in call order.  Each
mutation method becomes a pure function from the old state to the pair of the
new state and the trace of values published during the call.
-/

/-- The CartItem interface of cart.service.ts.  JS numbers carrying ids,
prices and quantities are embedded as Int. -/
structure CartItem where
  id : Int
  name : String
  price : Int
  quantity : Int
  image : Option String
deriving DecidableEq, Repr

/-- The argument of addToCart: Omit of CartItem and quantity. -/
structure ProductInput where
  id : Int
  name : String
  price : Int
  image : Option String
deriving DecidableEq, Repr

/-- One published value: a call of next on the lines cell or on the count
cell. -/
inductive Emit where
  | lines (v : List CartItem)
  | count (v : Int)
deriving DecidableEq, Repr

/-- The state held by the two BehaviorSubject cells of CartService. -/
structure CartState where
  items : List CartItem
  count : Int
deriving DecidableEq, Repr

/-- Initial state: new BehaviorSubject of the empty list and of 0. -/
def emptyCart : CartState := ⟨[], 0⟩

/-- The reduce of updateCartCount: sum of quantities, left fold from 0. -/
def sumQty (items : List CartItem) : Int :=
  items.foldl (fun total item => total + item.quantity) 0

/-- updateCartCount: recompute the count from the current line list and
publish it on the count cell.  Returns the new stored count and the trace. -/
def updateCartCount (items : List CartItem) : Int × List Emit :=
  let count := sumQty items
  (count, [Emit.count count])

/-- Effect on the line list of mutating, in place, the first element whose id
matches pid (the object returned by Array.find) and then re-publishing a
shallow copy of the array: the first matching element is replaced by f of it,
every other element is unchanged. -/
def updateFirst (pid : Int) (f : CartItem → CartItem) : List CartItem → List CartItem
  | [] => []
  | item :: rest =>
    if item.id = pid then f item :: rest
    else item :: updateFirst pid f rest

/-- addToCart: if a line with the product id exists, increment its quantity
by 1 in place and publish the copied list; otherwise append a fresh line with
quantity 1 and publish; then updateCartCount. -/
def addToCart (s : CartState) (product : ProductInput) : CartState × List Emit :=
  match s.items.find? (fun item => item.id == product.id) with
  | some _ =>
    let newItems := updateFirst product.id
      (fun item => { item with quantity := item.quantity + 1 }) s.items
    let uc := updateCartCount newItems
    (⟨newItems, uc.1⟩, Emit.lines newItems :: uc.2)
  | none =>
    let newItem : CartItem :=
      { id := product.id, name := product.name, price := product.price,
        quantity := 1, image := product.image }
    let newItems := s.items ++ [newItem]
    let uc := updateCartCount newItems
    (⟨newItems, uc.1⟩, Emit.lines newItems :: uc.2)

/-- removeFromCart: filter out the lines whose id matches, publish the
filtered list unconditionally, then updateCartCount. -/
def removeFromCart (s : CartState) (productId : Int) : CartState × List Emit :=
  let updatedItems := s.items.filter (fun item => item.id != productId)
  let uc := updateCartCount updatedItems
  (⟨updatedItems, uc.1⟩, Emit.lines updatedItems :: uc.2)

/-- updateQuantity: a non-positive quantity delegates to removeFromCart; else
if a line with the id exists, set its quantity in place and publish, then
updateCartCount; else do nothing and publish nothing. -/
def updateQuantity (s : CartState) (productId : Int) (quantity : Int) :
    CartState × List Emit :=
  if quantity ≤ 0 then removeFromCart s productId
  else
    match s.items.find? (fun item => item.id == productId) with
    | some _ =>
      let newItems := updateFirst productId
        (fun item => { item with quantity := quantity }) s.items
      let uc := updateCartCount newItems
      (⟨newItems, uc.1⟩, Emit.lines newItems :: uc.2)
    | none => (s, [])

/-- clearCart: publish the empty list, then updateCartCount. -/
def clearCart (_s : CartState) : CartState × List Emit :=
  let uc := updateCartCount ([] : List CartItem)
  (⟨[], uc.1⟩, Emit.lines [] :: uc.2)

/-- getTotalPrice: pure left fold of price times quantity from 0. -/
def getTotalPrice (s : CartState) : Int :=
  s.items.foldl (fun total item => total + item.price * item.quantity) 0

/-- One call of a mutation method of the service. -/
inductive Op where
  | add (product : ProductInput)
  | remove (productId : Int)
  | setQty (productId : Int) (quantity : Int)
  | clear
deriving DecidableEq, Repr

/-- Dispatch one operation. -/
def applyOp (s : CartState) : Op → CartState × List Emit
  | Op.add p => addToCart s p
  | Op.remove pid => removeFromCart s pid
  | Op.setQty pid q => updateQuantity s pid q
  | Op.clear => clearCart s

/-- State reached by a sequence of operations from the initial state. -/
def runOps (ops : List Op) : CartState :=
  ops.foldl (fun s op => (applyOp s op).1) emptyCart

/-- Mathematical sum of quantities over a line list, stated as in the spec. -/
def specTotalQty (items : List CartItem) : Int :=
  (items.map (fun item => item.quantity)).sum

/-- Mathematical sum of price times quantity over a line list, stated as in
the spec. -/
def specTotalPrice (items : List CartItem) : Int :=
  (items.map (fun item => item.price * item.quantity)).sum

/-- At most one line per product id. -/
def uniqIds (items : List CartItem) : Prop :=
  (items.map (fun item => item.id)).Nodup

instance (items : List CartItem) : Decidable (uniqIds items) := by
  unfold uniqIds
  infer_instance

/-! Helper lemmas about the embedding. -/

theorem foldl_add_map_sum (f : CartItem → Int) (l : List CartItem) (a : Int) :
    l.foldl (fun t i => t + f i) a = a + (l.map f).sum := by
  induction l generalizing a with
  | nil => simp
  | cons i rest ih =>
    rw [List.foldl_cons, ih, List.map_cons, List.sum_cons]
    ring

theorem sumQty_eq_spec (l : List CartItem) : sumQty l = specTotalQty l := by
  have h := foldl_add_map_sum (fun i => i.quantity) l 0
  simpa [sumQty, specTotalQty] using h

theorem getTotalPrice_eq_spec (s : CartState) :
    getTotalPrice s = specTotalPrice s.items := by
  have h := foldl_add_map_sum (fun i => i.price * i.quantity) s.items 0
  simpa [getTotalPrice, specTotalPrice] using h

theorem updateFirst_map_id (pid : Int) (f : CartItem → CartItem)
    (hf : ∀ x, (f x).id = x.id) (l : List CartItem) :
    (updateFirst pid f l).map (fun i => i.id) = l.map (fun i => i.id) := by
  induction l with
  | nil => rfl
  | cons item rest ih =>
    by_cases h : item.id = pid
    · simp [updateFirst, h, hf]
    · simp [updateFirst, h, ih]

theorem updateFirst_eq_map (pid : Int) (f : CartItem → CartItem)
    (l : List CartItem) (hu : uniqIds l) :
    updateFirst pid f l = l.map (fun x => if x.id = pid then f x else x) := by
  induction l with
  | nil => rfl
  | cons item rest ih =>
    have hcons : (List.map (fun i => i.id) (item :: rest)).Nodup := hu
    rw [List.map_cons] at hcons
    obtain ⟨hnotin, hu'⟩ := List.nodup_cons.mp hcons
    by_cases h : item.id = pid
    · have hrest : rest.map (fun x => if x.id = pid then f x else x) = rest := by
        apply List.map_congr_left ?_ |>.trans (List.map_id rest)
        intro x hx
        have hxne : x.id ≠ pid := by
          intro hxe
          exact hnotin (h ▸ hxe ▸ List.mem_map_of_mem (fun i => i.id) hx)
        simp [hxne]
      simp [updateFirst, h, hrest]
    · simp [updateFirst, h, ih hu']

theorem eta_quantity (x : CartItem) : { x with quantity := x.quantity } = x := by
  cases x
  rfl

theorem applyOp_consistent (s : CartState) (op : Op)
    (hs : s.count = specTotalQty s.items) :
    (applyOp s op).1.count = specTotalQty (applyOp s op).1.items := by
  cases op with
  | add p =>
    simp only [applyOp, addToCart]
    split <;> simp [updateCartCount, sumQty_eq_spec]
  | remove pid =>
    simp [applyOp, removeFromCart, updateCartCount, sumQty_eq_spec]
  | setQty pid q =>
    simp only [applyOp, updateQuantity]
    split
    · simp [removeFromCart, updateCartCount, sumQty_eq_spec]
    · split
      · simp [updateCartCount, sumQty_eq_spec]
      · exact hs
  | clear =>
    simp [applyOp, clearCart, updateCartCount, sumQty_eq_spec, specTotalQty]

theorem applyOp_uniq (s : CartState) (op : Op) (hs : uniqIds s.items) :
    uniqIds (applyOp s op).1.items := by
  cases op with
  | add p =>
    simp only [applyOp, addToCart]
    cases hfind : s.items.find? (fun item => item.id == p.id) with
    | some e =>
      simp only [hfind]
      show uniqIds (updateFirst p.id
        (fun item => { item with quantity := item.quantity + 1 }) s.items)
      unfold uniqIds at hs ⊢
      rw [updateFirst_map_id p.id
        (fun item => { item with quantity := item.quantity + 1 }) (fun x => rfl)]
      exact hs
    | none =>
      simp only [hfind]
      have habs : ∀ x ∈ s.items, x.id ≠ p.id := by
        intro x hx
        have h := List.find?_eq_none.mp hfind x hx
        simpa using h
      show uniqIds (s.items ++ [_])
      unfold uniqIds at hs ⊢
      rw [List.map_append]
      refine List.Nodup.append hs (List.nodup_singleton _) ?_
      intro a ha hb
      obtain ⟨x, hx, hxa⟩ := List.mem_map.mp ha
      have hb' : a = p.id := List.mem_singleton.mp hb
      exact habs x hx (hxa.trans hb')
  | remove pid =>
    simp only [applyOp, removeFromCart]
    unfold uniqIds at hs ⊢
    exact List.Nodup.sublist ((List.filter_sublist _).map _) hs
  | setQty pid q =>
    simp only [applyOp, updateQuantity]
    split
    · unfold uniqIds at hs ⊢
      exact List.Nodup.sublist ((List.filter_sublist _).map _) hs
    · split
      · show uniqIds (updateFirst pid (fun item => { item with quantity := q }) s.items)
        unfold uniqIds at hs ⊢
        rw [updateFirst_map_id pid
          (fun item => { item with quantity := q }) (fun x => rfl)]
        exact hs
      · exact hs
  | clear =>
    simp [applyOp, clearCart, uniqIds]

theorem runOps_inv (P : CartState → Prop)
    (hstep : ∀ s op, P s → P (applyOp s op).1) (ops : List Op) :
    ∀ s : CartState, P s → P (ops.foldl (fun s op => (applyOp s op).1) s) := by
  induction ops with
  | nil => intro s hs; exact hs
  | cons op rest ih => intro s hs; exact ih _ (hstep s op hs)

theorem applyOp_trace_shape (s : CartState) (op : Op) :
    (∃ l, (applyOp s op).2 = [Emit.lines l, Emit.count (sumQty l)]) ∨
    ((applyOp s op).2 = [] ∧ (applyOp s op).1 = s) := by
  cases op with
  | add p =>
    simp only [applyOp, addToCart, updateCartCount]
    split <;> exact Or.inl ⟨_, rfl⟩
  | remove pid => exact Or.inl ⟨_, rfl⟩
  | setQty pid q =>
    simp only [applyOp, updateQuantity]
    split
    · exact Or.inl ⟨_, rfl⟩
    · split
      · exact Or.inl ⟨_, rfl⟩
      · exact Or.inr ⟨rfl, rfl⟩
  | clear => exact Or.inl ⟨_, rfl⟩

/-- C1, counterexample: removeFromCart on an id absent from the cart still
publishes on both feeds (the filtered list on the lines cell, the recomputed
count on the count cell), so its emission trace is not empty; the claim that
it emits nothing is false already on the empty cart. -/
theorem removeFromCart_absent_emits :
    (removeFromCart emptyCart 5).2 = [Emit.lines [], Emit.count 0] ∧
    (removeFromCart emptyCart 5).2 ≠ [] := by
  constructor
  · decide
  · decide

/-- C1, amended: removeFromCart on an id with no matching line leaves the
stored state (lines and count values) unchanged, but still emits exactly one
value on each feed, re-publishing the unchanged lines list and count. -/
theorem removeFromCart_absent_state_unchanged (s : CartState) (x : Int)
    (habs : ∀ item ∈ s.items, item.id ≠ x)
    (hc : s.count = specTotalQty s.items) :
    (removeFromCart s x).1 = s ∧
    (removeFromCart s x).2 = [Emit.lines s.items, Emit.count s.count] := by
  have hfilter : s.items.filter (fun item => item.id != x) = s.items := by
    apply List.filter_eq_self.mpr
    intro a ha
    simpa using habs a ha
  constructor
  · show (⟨s.items.filter (fun item => item.id != x),
        sumQty (s.items.filter (fun item => item.id != x))⟩ : CartState) = s
    rw [hfilter, sumQty_eq_spec, ← hc]
  · show Emit.lines (s.items.filter (fun item => item.id != x))
        :: [Emit.count (sumQty (s.items.filter (fun item => item.id != x)))]
        = [Emit.lines s.items, Emit.count s.count]
    rw [hfilter, sumQty_eq_spec, ← hc]

theorem removeFromCart_absent_state_unchanged_witness :
    (removeFromCart ⟨[⟨1, "A", 10, 2, none⟩], 2⟩ 5).1
      = ⟨[⟨1, "A", 10, 2, none⟩], 2⟩ ∧
    (removeFromCart ⟨[⟨1, "A", 10, 2, none⟩], 2⟩ 5).2
      = [Emit.lines [⟨1, "A", 10, 2, none⟩], Emit.count 2] :=
  removeFromCart_absent_state_unchanged ⟨[⟨1, "A", 10, 2, none⟩], 2⟩ 5
    (by decide) (by decide)

/-- C2: after any sequence of operations from the empty cart, the stored
count equals the sum of the quantities of the stored lines, and in the
emission trace of any further operation a published count always equals the
sum of quantities of the lines list published alongside it. -/
theorem totalCount_matches_lines (ops : List Op) :
    (runOps ops).count = specTotalQty (runOps ops).items ∧
    ∀ op : Op, ∀ l : List CartItem, ∀ c : Int,
      Emit.lines l ∈ (applyOp (runOps ops) op).2 →
      Emit.count c ∈ (applyOp (runOps ops) op).2 → c = specTotalQty l := by
  constructor
  · have h := runOps_inv (fun s => s.count = specTotalQty s.items)
      applyOp_consistent ops emptyCart (by simp [emptyCart, specTotalQty])
    simpa [runOps] using h
  · intro op l c hl hc
    rcases applyOp_trace_shape (runOps ops) op with ⟨l', h2⟩ | ⟨h2, _⟩
    · rw [h2] at hl hc
      simp only [List.mem_cons] at hl hc
      have hll : l = l' := by
        rcases hl with h | h | h
        · exact Emit.lines.inj h
        · cases h
        · cases h
      have hcc : c = sumQty l' := by
        rcases hc with h | h | h
        · cases h
        · exact Emit.count.inj h
        · cases h
      rw [hll, hcc, sumQty_eq_spec]
    · rw [h2] at hl
      cases hl

theorem totalCount_matches_lines_witness :
    (runOps [Op.add ⟨1, "A", 10, none⟩]).count
      = specTotalQty (runOps [Op.add ⟨1, "A", 10, none⟩]).items ∧
    (0 : Int) = specTotalQty [] := by
  refine ⟨(totalCount_matches_lines [Op.add ⟨1, "A", 10, none⟩]).1, ?_⟩
  exact (totalCount_matches_lines [Op.add ⟨1, "A", 10, none⟩]).2
    (Op.remove 1) [] 0 (by decide) (by decide)

/-- C3: any sequence of operations from the empty cart yields a line list
with at most one line per product id. -/
theorem lines_unique_per_productId (ops : List Op) :
    uniqIds (runOps ops).items := by
  have h := runOps_inv (fun s => uniqIds s.items) applyOp_uniq ops emptyCart
    (by simp [uniqIds, emptyCart])
  simpa [runOps] using h

/-- C5: a non-positive quantity makes updateQuantity behave exactly as
removeFromCart, state and emissions alike, and the id is absent from the
resulting lines. -/
theorem setQuantity_nonpos_eq_remove (s : CartState) (x q : Int) (hq : q ≤ 0) :
    updateQuantity s x q = removeFromCart s x ∧
    ∀ l ∈ (updateQuantity s x q).1.items, l.id ≠ x := by
  have heq : updateQuantity s x q = removeFromCart s x := by
    simp [updateQuantity, hq]
  refine ⟨heq, ?_⟩
  rw [heq]
  intro l hl
  have hmem : l ∈ s.items.filter (fun item => item.id != x) := hl
  have h2 := List.of_mem_filter hmem
  simpa using h2

theorem setQuantity_nonpos_eq_remove_witness :
    updateQuantity ⟨[⟨1, "A", 10, 2, none⟩], 2⟩ 1 (-5)
      = removeFromCart ⟨[⟨1, "A", 10, 2, none⟩], 2⟩ 1 :=
  (setQuantity_nonpos_eq_remove ⟨[⟨1, "A", 10, 2, none⟩], 2⟩ 1 (-5)
    (by decide)).1

/-- C6: updateQuantity with a positive quantity and no matching line changes
nothing and publishes nothing; in particular it never creates a line, as in
the scenario setQuantity 99 5 on the empty cart. -/
theorem setQuantity_absent_noop (s : CartState) (x q : Int) (hq : 0 < q)
    (habs : ∀ l ∈ s.items, l.id ≠ x) :
    updateQuantity s x q = (s, ([] : List Emit)) ∧
    (updateQuantity emptyCart 99 5).1.items = [] := by
  have hfd : s.items.find? (fun item => item.id == x) = none := by
    apply List.find?_eq_none.mpr
    intro item hitem
    simpa using habs item hitem
  constructor
  · simp [updateQuantity, not_le.mpr hq, hfd]
  · decide

theorem setQuantity_absent_noop_witness :
    updateQuantity ⟨[⟨1, "A", 10, 2, none⟩], 2⟩ 99 5
      = (⟨[⟨1, "A", 10, 2, none⟩], 2⟩, ([] : List Emit)) :=
  (setQuantity_absent_noop ⟨[⟨1, "A", 10, 2, none⟩], 2⟩ 99 5
    (by decide) (by decide)).1

/-- C7: getTotalPrice is the sum of price times quantity over the current
lines (it takes the state and returns only a number, so it neither mutates
nor publishes), and after an add followed by clear it returns 0 on the empty
line list. -/
theorem getTotalPrice_correct (s : CartState) :
    getTotalPrice s = specTotalPrice s.items ∧
    getTotalPrice (runOps [Op.add ⟨1, "A", 10, none⟩, Op.clear]) = 0 ∧
    (runOps [Op.add ⟨1, "A", 10, none⟩, Op.clear]).items = [] :=
  ⟨getTotalPrice_eq_spec s, by decide, by decide⟩

/-- C8: every operation either publishes exactly one lines value followed by
exactly one count value (in that order, within the same call), or publishes
nothing at all and leaves the state untouched; hence every operation that
mutates publishes exactly once per feed, lines first. -/
theorem mutation_publishes_lines_then_count (s : CartState) (op : Op) :
    (∃ l : List CartItem, ∃ c : Int,
      (applyOp s op).2 = [Emit.lines l, Emit.count c]) ∨
    ((applyOp s op).2 = [] ∧ (applyOp s op).1 = s) := by
  rcases applyOp_trace_shape s op with ⟨l, hl⟩ | h
  · exact Or.inl ⟨l, sumQty l, hl⟩
  · exact Or.inr h

/-- C4: on a cart with unique product ids, addToCart of an already present
id replaces only the matching line by the same line with quantity one
larger, keeping name, price and image at their add-time values and leaving
every other line untouched; addToCart of a fresh id appends a quantity-1
line at the end; adding the same product twice to the empty cart gives one
line of quantity 2, count 2 and total price 20. -/
theorem addToCart_behavior (s : CartState) (p : ProductInput)
    (hu : uniqIds s.items) :
    ((∃ l ∈ s.items, l.id = p.id) →
      (addToCart s p).1.items
        = s.items.map (fun x =>
            if x.id = p.id then { x with quantity := x.quantity + 1 } else x)) ∧
    ((∀ l ∈ s.items, l.id ≠ p.id) →
      (addToCart s p).1.items
        = s.items ++
          [{ id := p.id, name := p.name, price := p.price,
             quantity := 1, image := p.image }]) ∧
    ((runOps [Op.add ⟨1, "A", 10, none⟩, Op.add ⟨1, "A", 10, none⟩]).items
        = [⟨1, "A", 10, 2, none⟩] ∧
      (runOps [Op.add ⟨1, "A", 10, none⟩, Op.add ⟨1, "A", 10, none⟩]).count = 2 ∧
      getTotalPrice (runOps [Op.add ⟨1, "A", 10, none⟩, Op.add ⟨1, "A", 10, none⟩])
        = 20) := by
  refine ⟨?_, ?_, by decide, by decide, by decide⟩
  · rintro ⟨l, hl, hlid⟩
    have hsome : (s.items.find? (fun item => item.id == p.id)).isSome := by
      rw [List.find?_isSome]
      exact ⟨l, hl, by simpa using hlid⟩
    cases hfd : s.items.find? (fun item => item.id == p.id) with
    | none => rw [hfd] at hsome; cases hsome
    | some e =>
      simp only [addToCart, hfd]
      exact updateFirst_eq_map p.id _ s.items hu
  · intro habs
    have hfd : s.items.find? (fun item => item.id == p.id) = none := by
      apply List.find?_eq_none.mpr
      intro x hx
      simpa using habs x hx
    simp only [addToCart, hfd]

theorem addToCart_behavior_witness :
    uniqIds ([⟨1, "A", 10, 1, none⟩] : List CartItem) ∧
    (addToCart ⟨[⟨1, "A", 10, 1, none⟩], 1⟩ ⟨1, "A", 10, none⟩).1.items
      = [⟨1, "A", 10, 2, none⟩] := by
  constructor
  · decide
  · have h := (addToCart_behavior ⟨[⟨1, "A", 10, 1, none⟩], 1⟩ ⟨1, "A", 10, none⟩
      (by decide)).1 ⟨⟨1, "A", 10, 1, none⟩, by decide, rfl⟩
    exact h.trans (by decide)

/-- C9: operations never reorder the retained lines.  An add of a present id
and a positive set of a present id keep the id sequence of the line list
unchanged; a remove, and a non-positive set, yield a sublist of the old line
list (retained lines in their old relative order); an add of a fresh id
appends at the end; a positive set of an absent id keeps the list as is;
clear empties it. -/
theorem lines_order_stable (s : CartState) (p : ProductInput) (x q : Int) :
    ((∃ l ∈ s.items, l.id = p.id) →
      (addToCart s p).1.items.map (fun i => i.id)
        = s.items.map (fun i => i.id)) ∧
    ((∀ l ∈ s.items, l.id ≠ p.id) →
      (addToCart s p).1.items
        = s.items ++
          [{ id := p.id, name := p.name, price := p.price,
             quantity := 1, image := p.image }]) ∧
    List.Sublist (removeFromCart s x).1.items s.items ∧
    (0 < q → (∃ l ∈ s.items, l.id = x) →
      (updateQuantity s x q).1.items.map (fun i => i.id)
        = s.items.map (fun i => i.id)) ∧
    (q ≤ 0 → List.Sublist (updateQuantity s x q).1.items s.items) ∧
    (0 < q → (∀ l ∈ s.items, l.id ≠ x) →
      (updateQuantity s x q).1.items = s.items) ∧
    (clearCart s).1.items = [] := by
  refine ⟨?_, ?_, ?_, ?_, ?_, ?_, rfl⟩
  · rintro ⟨l, hl, hlid⟩
    have hsome : (s.items.find? (fun item => item.id == p.id)).isSome := by
      rw [List.find?_isSome]
      exact ⟨l, hl, by simpa using hlid⟩
    cases hfd : s.items.find? (fun item => item.id == p.id) with
    | none => rw [hfd] at hsome; cases hsome
    | some e =>
      simp only [addToCart, hfd]
      exact updateFirst_map_id p.id
        (fun item => { item with quantity := item.quantity + 1 })
        (fun y => rfl) s.items
  · intro habs
    have hfd : s.items.find? (fun item => item.id == p.id) = none := by
      apply List.find?_eq_none.mpr
      intro y hy
      simpa using habs y hy
    simp only [addToCart, hfd]
  · exact List.filter_sublist s.items
  · intro hq
    rintro ⟨l, hl, hlid⟩
    have hsome : (s.items.find? (fun item => item.id == x)).isSome := by
      rw [List.find?_isSome]
      exact ⟨l, hl, by simpa using hlid⟩
    cases hfd : s.items.find? (fun item => item.id == x) with
    | none => rw [hfd] at hsome; cases hsome
    | some e =>
      simp only [updateQuantity, not_le.mpr hq, if_false, hfd]
      exact updateFirst_map_id x (fun item => { item with quantity := q })
        (fun y => rfl) s.items
  · intro hq
    simp only [updateQuantity, hq, if_true]
    exact List.filter_sublist s.items
  · intro hq habs
    have hfd : s.items.find? (fun item => item.id == x) = none := by
      apply List.find?_eq_none.mpr
      intro y hy
      simpa using habs y hy
    simp [updateQuantity, not_le.mpr hq, hfd]

theorem lines_order_stable_witness :
    (addToCart ⟨[⟨1, "A", 10, 1, none⟩], 1⟩ ⟨2, "B", 5, none⟩).1.items
      = [⟨1, "A", 10, 1, none⟩]
        ++ [{ id := 2, name := "B", price := 5, quantity := 1, image := none }] ∧
    (updateQuantity ⟨[⟨1, "A", 10, 1, none⟩], 1⟩ 1 3).1.items.map (fun i => i.id)
      = ([⟨1, "A", 10, 1, none⟩] : List CartItem).map (fun i => i.id) := by
  have h := lines_order_stable ⟨[⟨1, "A", 10, 1, none⟩], 1⟩ ⟨2, "B", 5, none⟩ 1 3
  refine ⟨h.2.1 (by decide), ?_⟩
  exact h.2.2.2.1 (by decide) ⟨⟨1, "A", 10, 1, none⟩, by decide, rfl⟩

/-- C10: setting the quantity of a present line to the value it already has
(with a positive quantity, a consistent stored count and unique ids) leaves
the stored state unchanged yet still publishes one value on each feed: the
structurally unchanged lines list and the unchanged count. -/
theorem setQuantity_same_value_still_publishes (s : CartState) (x q : Int)
    (hu : uniqIds s.items) (hc : s.count = specTotalQty s.items)
    (l : CartItem) (hl : l ∈ s.items) (hlid : l.id = x) (hlq : l.quantity = q)
    (hq : 0 < q) :
    (updateQuantity s x q).1 = s ∧
    (updateQuantity s x q).2 = [Emit.lines s.items, Emit.count s.count] := by
  have hsome : (s.items.find? (fun item => item.id == x)).isSome := by
    rw [List.find?_isSome]
    exact ⟨l, hl, by simpa using hlid⟩
  have hitems : updateFirst x (fun item => { item with quantity := q }) s.items
      = s.items := by
    rw [updateFirst_eq_map x (fun item => { item with quantity := q }) s.items hu]
    apply (List.map_congr_left ?_).trans (List.map_id s.items)
    intro y hy
    by_cases hyx : y.id = x
    · have hyl : y = l :=
        List.inj_on_of_nodup_map hu hy hl (by rw [hyx, hlid])
      subst hyl
      rw [if_pos hlid, ← hlq, eta_quantity, id_eq]
    · simp [hyx]
  cases hfd : s.items.find? (fun item => item.id == x) with
  | none => rw [hfd] at hsome; cases hsome
  | some e =>
    constructor
    · simp only [updateQuantity, not_le.mpr hq, if_false, hfd, hitems]
      show (⟨s.items, sumQty s.items⟩ : CartState) = s
      rw [sumQty_eq_spec, ← hc]
    · simp only [updateQuantity, not_le.mpr hq, if_false, hfd, hitems]
      show Emit.lines s.items :: [Emit.count (sumQty s.items)]
          = [Emit.lines s.items, Emit.count s.count]
      rw [sumQty_eq_spec, ← hc]

theorem setQuantity_same_value_still_publishes_witness :
    (updateQuantity ⟨[⟨1, "A", 10, 2, none⟩], 2⟩ 1 2).1
      = ⟨[⟨1, "A", 10, 2, none⟩], 2⟩ ∧
    (updateQuantity ⟨[⟨1, "A", 10, 2, none⟩], 2⟩ 1 2).2
      = [Emit.lines [⟨1, "A", 10, 2, none⟩], Emit.count 2] :=
  setQuantity_same_value_still_publishes ⟨[⟨1, "A", 10, 2, none⟩], 2⟩ 1 2
    (by decide) (by decide) ⟨1, "A", 10, 2, none⟩ (by decide) rfl rfl (by decide)
